import Mathlib

/-!
Shallow embedding of the `twitter-expand-influencers` scripts:
`expand_influencers.py`, `generate_powertrack_rules.py` and
`influencers_to_csv.py`.

Lines of input files are modelled as `List Char`; Twitter user IDs as `Nat`;
Python floats as exact rationals (`ℚ`); the Twitter API as oracle functions
returning `Except Unit _` (an `error` models a raised `TweepError`); a Python
run that raises an uncaught exception is modelled by `Option` with `none`
for the crash.
-/

namespace ExpandInfluencers

/-! ### Constants of `expand_influencers.py` -/

/-- Number of "civic listeners", an intermediate output. -/
def LISTENER_SET_SIZE : Nat := 100

/-- Max number of "civic influencers", the final output. -/
def INFLUENCER_SET_SIZE : Nat := 1000

/-- Estimate of the number of Twitter users total (`5e8`). -/
def NUM_TWITTER_USERS : ℚ := 500000000

/-- Minimum odds ratio below which an influencer is not output. -/
def MIN_CIVIC_ODDS_RATIO : ℚ := 10

/-! ### `read_seed_set` -/

/-- Characters treated as whitespace by Python `str.strip()` / `str.split()`. -/
def pyWhitespace (c : Char) : Bool :=
  c == ' ' || c == '\t' || c == '\n' || c == '\r' || c == '\x0b' || c == '\x0c'

/-- Python `str.strip()`: drop whitespace from both ends. -/
def pyStrip (l : List Char) : List Char :=
  ((l.dropWhile pyWhitespace).reverse.dropWhile pyWhitespace).reverse

/-- One step of splitting on whitespace, folded from the right. -/
def splitStep (c : Char) (acc : List (List Char)) : List (List Char) :=
  if pyWhitespace c then [] :: acc
  else
    match acc with
    | [] => [[c]]
    | t :: ts => (c :: t) :: ts

/-- Python `str.split()` with no argument: whitespace-delimited tokens,
empty tokens discarded. -/
def pySplit (l : List Char) : List (List Char) :=
  (l.foldr splitStep []).filter (fun t => !t.isEmpty)

/-- Python `str.replace("@", "")`: remove every `@` character. -/
def removeAts (l : List Char) : List Char := l.filter (fun c => c != '@')

/-- Embedding of `read_seed_set`: for each non-empty line take
`line.strip().replace("@", "").split()[0]`; the indexing `[0]` raises
`IndexError` (modelled by `none`) when the line splits into no tokens.
The resulting list is deduplicated (Python `list(set(...))`, with first
occurrence kept as the deterministic representative). -/
def read_seed_set (lines : List (List Char)) : Option (List (List Char)) :=
  ((lines.filter (fun l => !l.isEmpty)).mapM
    (fun line => (pySplit (removeAts (pyStrip line))).head?)).map List.dedup

/-- Modelled from the spec words for comparison: from each non-empty line the
first whitespace-delimited token with only a leading `@` stripped. -/
def stripLeadingAt (l : List Char) : List Char :=
  match l with
  | '@' :: rest => rest
  | other => other

/-- Spec-words version of `read_seed_set` (first token, only a leading `@`
stripped), used to compare against the embedding of the source. -/
def read_seed_set_specLeading (lines : List (List Char)) : Option (List (List Char)) :=
  ((lines.filter (fun l => !l.isEmpty)).mapM
    (fun line => ((pySplit line).head?).map stripLeadingAt)).map List.dedup

/-- Amended description of `read_seed_set`: from each non-empty line, the
first whitespace-delimited token of the line with every `@` removed. -/
def read_seed_set_amended (lines : List (List Char)) : Option (List (List Char)) :=
  ((lines.filter (fun l => !l.isEmpty)).mapM
    (fun line => (pySplit (removeAts line)).head?)).map List.dedup

/-! ### API fetch wrappers -/

/-- Embedding of `handle_to_followers`: on a `TweepError` the handler
returns the empty list. -/
def handle_to_followers (F : List Char → Except Unit (List Nat)) (h : List Char) : List Nat :=
  match F h with
  | .ok l => l
  | .error _ => []

/-- Embedding of `id_to_followees`: on a `TweepError` the handler returns
the empty list. -/
def id_to_followees (G : Nat → Except Unit (List Nat)) (i : Nat) : List Nat :=
  match G i with
  | .ok l => l
  | .error _ => []

/-- Twitter user record, abstracted to the field the script reads. -/
structure UserRecord where
  followers_count : Nat
deriving DecidableEq, Repr

/-- Embedding of `id_to_user_metadata`: on a `TweepError` the handler
returns `None`. -/
def id_to_user_metadata (H : Nat → Except Unit UserRecord) (i : Nat) : Option UserRecord :=
  match H i with
  | .ok u => some u
  | .error _ => none

/-! ### `add_civic_stats` -/

/-- JSON dictionary of a user record after the script may have added the
`civic_listeners` and `civic_odds_ratio` keys (`none` = key absent). -/
structure OutRecord where
  user : UserRecord
  civic_listeners : Option Nat
  civic_odds_ratio : Option ℚ
deriving DecidableEq, Repr

/-- A user record as fetched, before any key is added. -/
def initOut (u : UserRecord) : OutRecord := ⟨u, none, none⟩

/-- Embedding of `add_civic_stats`: always sets `civic_listeners`; when
`followers_count` is zero it returns early and leaves `civic_odds_ratio`
unset, otherwise it stores the odds ratio. -/
def add_civic_stats (r : OutRecord) (c : Nat) : OutRecord :=
  let r1 := { r with civic_listeners := some c }
  if r.user.followers_count = 0 then r1
  else
    { r1 with
      civic_odds_ratio := some
        (((c : ℚ) / ((INFLUENCER_SET_SIZE : ℚ) + 1 - (c : ℚ))) /
          ((r.user.followers_count : ℚ) / (NUM_TWITTER_USERS - (r.user.followers_count : ℚ)))) }

/-! ### Pass 1 and pass 2 maps -/

/-- Python `dict` insertion as done in both passes: a new key is appended
with a singleton set, an existing key gets the value added to its set
(sets are modelled as duplicate-free lists in insertion order). -/
def mapInsert [DecidableEq α] (m : List (Nat × List α)) (k : Nat) (v : α) :
    List (Nat × List α) :=
  if m.any (fun p => p.1 == k) then
    m.map (fun p => if p.1 == k then (p.1, if v ∈ p.2 then p.2 else p.2 ++ [v]) else p)
  else m ++ [(k, [v])]

/-- One seed handle of pass 1: record `handle` against every fetched follower. -/
def pass1Step (F : List Char → Except Unit (List Nat))
    (m : List (Nat × List (List Char))) (h : List Char) : List (Nat × List (List Char)) :=
  (handle_to_followers F h).foldl (fun m2 fid => mapInsert m2 fid h) m

/-- Map built by pass 1: follower ID to set of seed handles followed. -/
def follower_map (F : List Char → Except Unit (List Nat)) (seeds : List (List Char)) :
    List (Nat × List (List Char)) :=
  seeds.foldl (pass1Step F) []

/-- One listener of pass 2: record the listener against every fetched followee. -/
def pass2Step (G : Nat → Except Unit (List Nat))
    (m : List (Nat × List Nat)) (li : Nat × Nat) : List (Nat × List Nat) :=
  (id_to_followees G li.1).foldl (fun m2 fid => mapInsert m2 fid li.1) m

/-- Map built by pass 2: influencer ID to set of listener IDs. -/
def followee_map (G : Nat → Except Unit (List Nat)) (listeners : List (Nat × Nat)) :
    List (Nat × List Nat) :=
  listeners.foldl (pass2Step G) []

/-! ### Ranking -/

/-- Descending comparison by a `Nat` key; used with `List.insertionSort` this
models Python stable `list.sort(key=..., reverse=True)`. -/
def keyDesc (f : α → Nat) (a b : α) : Prop := f b ≤ f a

instance (f : α → Nat) : DecidableRel (keyDesc f) :=
  fun a b => inferInstanceAs (Decidable (f b ≤ f a))

instance (f : α → Nat) : IsTotal α (keyDesc f) :=
  ⟨fun a b => Nat.le_total (f b) (f a)⟩

instance (f : α → Nat) : IsTrans α (keyDesc f) :=
  ⟨fun _ _ _ hab hbc => Nat.le_trans hbc hab⟩

/-- Size of the accumulated set attached to a map entry. -/
def setSize (p : Nat × List α) : Nat := p.2.length

/-- Ranking step shared by both passes: sort the map items by set size
descending (stable), keep the first `cap`, annotate each with its count. -/
def rankTop (cap : Nat) (m : List (Nat × List α)) : List (Nat × Nat) :=
  ((m.insertionSort (keyDesc setSize)).take cap).map (fun p => (p.1, p.2.length))

/-! ### The output loop and `get_expanded_users` -/

/-- Embedding of the metadata loop of `get_expanded_users`: candidates whose
fetch fails are skipped; for a fetched record the script reads
`_json["civic_odds_ratio"]` unconditionally, which raises `KeyError`
(modelled by `none`) when the key was never set. -/
def processInfluencers (H : Nat → Except Unit UserRecord) :
    List (Nat × Nat) → Option (List OutRecord)
  | [] => some []
  | (i, c) :: rest =>
    match id_to_user_metadata H i with
    | none => processInfluencers H rest
    | some u =>
      let r := add_civic_stats (initOut u) c
      match r.civic_odds_ratio with
      | none => none
      | some q =>
        if MIN_CIVIC_ODDS_RATIO ≤ q then (processInfluencers H rest).map (r :: ·)
        else processInfluencers H rest

/-- Embedding of `get_expanded_users`. The two `isEmpty` guards model the
`IndexError` raised by `len(f_items[0][1])` in the progress-logging calls
when the ranked list of a pass is empty. -/
def get_expanded_users (F : List Char → Except Unit (List Nat))
    (G : Nat → Except Unit (List Nat)) (H : Nat → Except Unit UserRecord)
    (lines : List (List Char)) : Option (List OutRecord) :=
  match read_seed_set lines with
  | none => none
  | some seeds =>
    let m1 := follower_map F seeds
    if m1.isEmpty then none
    else
      let listeners := rankTop LISTENER_SET_SIZE m1
      let m2 := followee_map G listeners
      if m2.isEmpty then none
      else processInfluencers H (rankTop INFLUENCER_SET_SIZE m2)

/-! ### `generate_powertrack_rules.py` -/

/-- Chunk size constant of `generate_powertrack_rules.py`. -/
def NUM_HANDLES_PER_RULE : Nat := 30

/-- A PowerTrack rule payload entry. -/
structure Rule where
  value : String
  tag : String
deriving DecidableEq, Repr

/-- A `/rules` update payload: a group of rules. -/
structure RuleGroup where
  rules : List Rule
deriving DecidableEq, Repr

/-- Embedding of `make_rule`. -/
def make_rule (rule tag : String) : Rule := ⟨rule, tag⟩

/-- Python `" OR ".join(...)`. -/
def joinOr (xs : List String) : String := String.intercalate " OR " xs

/-- Slice `handles[i : i + n]` with `i = k * n`, as produced by the
`range(0, len(handles), n)` loop. -/
def chunk (n k : Nat) (l : List α) : List α := (l.drop (k * n)).take n

/-- Embedding of `handles_to_rules`: one rule group per chunk of at most
`NUM_HANDLES_PER_RULE` handles, with three tagged OR-clauses per group. -/
def handles_to_rules (handles : List String) (ruleset_name : String) : List RuleGroup :=
  (List.range ((handles.length + NUM_HANDLES_PER_RULE - 1) / NUM_HANDLES_PER_RULE)).map
    (fun k =>
      let hs := chunk NUM_HANDLES_PER_RULE k handles
      ⟨[make_rule (joinOr (hs.map (fun s => "from:" ++ s)))
          ("from_" ++ ruleset_name ++ "_" ++ toString k),
        make_rule (joinOr (hs.map (fun s => "@" ++ s)))
          ("at_" ++ ruleset_name ++ "_" ++ toString k),
        make_rule (joinOr (hs.map (fun s => "retweets_of:" ++ s)))
          ("retweets_of_" ++ ruleset_name ++ "_" ++ toString k)]⟩)

/-! ### `influencers_to_csv.py` -/

/-- An input line of the CSV script: a JSON influencer record, abstracted to
the fields the script reads. -/
structure InfRecord where
  screen_name : List Char
  name : List Char
  location : List Char
  followers_count : Nat
  civic_odds_ratio : ℚ
  description : List Char
deriving DecidableEq, Repr

/-- A data row of the output CSV, in column order: Screen name, Display
name, Location, Followers, Relevance, Description. -/
structure CsvRow where
  screen_name_col : List Char
  display_name_col : List Char
  location_col : List Char
  followers_col : Nat
  relevance_col : ℚ
  description_col : List Char
deriving DecidableEq, Repr

/-- Filter of the CSV script: skip a record when `followers_count < 20` or
`civic_odds_ratio < 200`. -/
def keepRecord (x : InfRecord) : Bool :=
  decide (20 ≤ x.followers_count) && decide ((200 : ℚ) ≤ x.civic_odds_ratio)

/-- One CSV data row from a kept record. -/
def toRow (x : InfRecord) : CsvRow :=
  ⟨x.screen_name, x.name, x.location, x.followers_count, x.civic_odds_ratio, x.description⟩

/-- Embedding of the CSV script body: filter, stable sort by follower count
descending, truncate to 500 rows, format. -/
def csvRows (recs : List InfRecord) : List CsvRow :=
  (((recs.filter keepRecord).insertionSort (keyDesc InfRecord.followers_count)).take 500).map
    toRow

/-! ### Concrete scenarios used to exercise the embedding -/

/-- Follower oracle: every handle has followers 1 and 2. -/
def F0 : List Char → Except Unit (List Nat) := fun _ => .ok [1, 2]

/-- Followee oracle: every listener follows user 7. -/
def G0 : Nat → Except Unit (List Nat) := fun _ => .ok [7]

/-- Metadata oracle: every user has 100 followers. -/
def H0 : Nat → Except Unit UserRecord := fun _ => .ok ⟨100⟩

/-- Metadata oracle: every user has zero followers. -/
def H1 : Nat → Except Unit UserRecord := fun _ => .ok ⟨0⟩

/-- Follower oracle whose every fetch raises. -/
def Ferr : List Char → Except Unit (List Nat) := fun _ => .error ()

/-- Followee oracle whose every fetch raises. -/
def Gerr : Nat → Except Unit (List Nat) := fun _ => .error ()

/-- Metadata oracle whose every fetch raises. -/
def Herr : Nat → Except Unit UserRecord := fun _ => .error ()

/-- Seed file with the single line `a`. -/
def lines0 : List (List Char) := [['a']]

/-- The single output record of the `F0`/`G0`/`H0` run: user 7, followed by
both listeners, with 100 followers. -/
def rec0 : OutRecord := ⟨⟨100⟩, some 2, some ((9999998 : ℚ) / 999)⟩

/-- Full output of the `F0`/`G0`/`H0` run. -/
def out0 : List OutRecord := [rec0]

/-- Concrete CSV input: two records pass both thresholds, one fails the
follower threshold, one fails the ratio threshold. -/
def recs0 : List InfRecord :=
  [⟨['a'], ['A'], ['l'], 25, 300, ['d']⟩,
   ⟨['b'], ['B'], ['l'], 10, 300, ['d']⟩,
   ⟨['c'], ['C'], ['l'], 30, 100, ['d']⟩,
   ⟨['e'], ['E'], ['l'], 30, 250, ['d']⟩]

/-- Concrete pass-1 map with engagement counts `[3, 3, 1]`: identities 10
and 20 are tied, 30 trails. -/
def m0 : List (Nat × List Nat) := [(10, [0, 1, 2]), (20, [3, 4, 5]), (30, [6])]

/-! ### Theorems -/

/-- C3: for every candidate with nonzero `followers_count = f` and
`civic_listeners = c`, the stored score is exactly
`(c / (INFLUENCER_SET_SIZE + 1 - c)) / (f / (NUM_TWITTER_USERS - f))`
(floats modelled as exact rationals), and at `c = 10`, `f = 100` the score
is the closed-form value `49999990 / 991` of that expression. -/
theorem add_civic_stats_formula :
    (∀ (u : UserRecord) (c : Nat), u.followers_count ≠ 0 →
      (add_civic_stats (initOut u) c).civic_odds_ratio =
        some (((c : ℚ) / ((INFLUENCER_SET_SIZE : ℚ) + 1 - (c : ℚ))) /
          ((u.followers_count : ℚ) / (NUM_TWITTER_USERS - (u.followers_count : ℚ))))) ∧
    (add_civic_stats (initOut ⟨100⟩) 10).civic_odds_ratio = some ((49999990 : ℚ) / 991) := by
  constructor
  · intro u c hf
    simp [add_civic_stats, initOut, hf]
  · simp [add_civic_stats, initOut]
    norm_num [INFLUENCER_SET_SIZE, NUM_TWITTER_USERS]

/-- Witness for C3 at `followers_count = 100`, `civic_listeners = 10`. -/
theorem add_civic_stats_formula_witness :
    (add_civic_stats (initOut ⟨100⟩) 10).civic_odds_ratio =
      some ((((10 : Nat) : ℚ) / ((INFLUENCER_SET_SIZE : ℚ) + 1 - ((10 : Nat) : ℚ))) /
        (((100 : Nat) : ℚ) / (NUM_TWITTER_USERS - ((100 : Nat) : ℚ)))) :=
  add_civic_stats_formula.1 ⟨100⟩ 10 (by decide)

/-- C1: a zero-follower candidate gets `civic_listeners` set but
`civic_odds_ratio` left unset, and the run then crashes (`KeyError` on
`_json["civic_odds_ratio"]`, modelled by `none`) instead of silently
filtering the candidate out. -/
theorem zero_followers_crash :
    (add_civic_stats (initOut ⟨0⟩) 5).civic_listeners = some 5 ∧
    (add_civic_stats (initOut ⟨0⟩) 5).civic_odds_ratio = none ∧
    get_expanded_users F0 G0 H1 lines0 = none := by decide

/-- C8: a line consisting only of whitespace passes the `if line` filter,
then `split()[0]` raises `IndexError` (modelled by `none`), so
`read_seed_set` does crash on such input rather than skipping the line. -/
theorem whitespace_line_crash :
    read_seed_set [[' ']] = none ∧
    read_seed_set [['a'], [' ', ' '], ['b']] = none := by decide

/-- Helper: folding a function that never changes the accumulator. -/
theorem foldl_id {f : β → α → β} (hf : ∀ b a, f b a = b) :
    ∀ (l : List α) (b : β), l.foldl f b = b
  | [], _ => rfl
  | a :: t, b => by rw [List.foldl_cons, hf]; exact foldl_id hf t b

/-- Helper: when every follower fetch comes back empty, pass 1 builds the
empty map. -/
theorem follower_map_nil {F : List Char → Except Unit (List Nat)}
    (hF : ∀ h, handle_to_followers F h = []) (seeds : List (List Char)) :
    follower_map F seeds = [] :=
  foldl_id (fun m h => by simp [pass1Step, hF]) seeds []

/-- Helper: when every followee fetch comes back empty, pass 2 builds the
empty map. -/
theorem followee_map_nil {G : Nat → Except Unit (List Nat)}
    (hG : ∀ i, id_to_followees G i = []) (listeners : List (Nat × Nat)) :
    followee_map G listeners = [] :=
  foldl_id (fun m li => by simp [pass2Step, hG]) listeners []

/-- C10: when pass 1 observes no followers at all, or pass 2 observes no
followees at all, `get_expanded_users` crashes (`IndexError` on the first
element of the empty ranked list, modelled by `none`) instead of returning
an empty output list. -/
theorem empty_pass_crash :
    ∀ (F : List Char → Except Unit (List Nat)) (G : Nat → Except Unit (List Nat))
      (H : Nat → Except Unit UserRecord) (lines seeds : List (List Char)),
      read_seed_set lines = some seeds →
      ((∀ h, handle_to_followers F h = []) → get_expanded_users F G H lines = none) ∧
      ((∀ i, id_to_followees G i = []) → get_expanded_users F G H lines = none) := by
  intro F G H lines seeds hread
  constructor
  · intro hF
    have h1 : follower_map F seeds = [] := follower_map_nil hF seeds
    simp [get_expanded_users, hread, h1]
  · intro hG
    by_cases h1 : (follower_map F seeds).isEmpty
    · simp [get_expanded_users, hread, h1]
    · have h2 : followee_map G (rankTop LISTENER_SET_SIZE (follower_map F seeds)) = [] :=
        followee_map_nil hG _
      simp [get_expanded_users, hread, h1, h2]

/-- Witness for C10: with every fetch raising, the run on seed file `a`
crashes with `none` instead of returning `some []`. -/
theorem empty_pass_crash_witness :
    get_expanded_users Ferr Gerr Herr lines0 = none :=
  (empty_pass_crash Ferr Gerr Herr lines0 [['a']] (by decide)).1 (fun _ => rfl)

/-- C9: a raised relation fetch degrades to the empty list, an erroring key
contributes nothing to its pass (the fold step is the identity there), and
a candidate whose metadata fetch raises is skipped while the output loop
continues over the remaining candidates. -/
theorem fetch_failure_graceful :
    (∀ (F : List Char → Except Unit (List Nat)) (h : List Char),
        F h = Except.error () → handle_to_followers F h = []) ∧
    (∀ (G : Nat → Except Unit (List Nat)) (i : Nat),
        G i = Except.error () → id_to_followees G i = []) ∧
    (∀ (F : List Char → Except Unit (List Nat)) (m : List (Nat × List (List Char)))
        (h : List Char), F h = Except.error () → pass1Step F m h = m) ∧
    (∀ (G : Nat → Except Unit (List Nat)) (m : List (Nat × List Nat)) (li : Nat × Nat),
        G li.1 = Except.error () → pass2Step G m li = m) ∧
    (∀ (H : Nat → Except Unit UserRecord) (pre post : List (Nat × Nat)) (i c : Nat),
        H i = Except.error () →
        processInfluencers H (pre ++ (i, c) :: post) = processInfluencers H (pre ++ post)) := by
  refine ⟨?_, ?_, ?_, ?_, ?_⟩
  · intro F h hF; simp [handle_to_followers, hF]
  · intro G i hG; simp [id_to_followees, hG]
  · intro F m h hF; simp [pass1Step, handle_to_followers, hF]
  · intro G m li hG; simp [pass2Step, id_to_followees, hG]
  · intro H pre post i c hH
    induction pre with
    | nil => simp [processInfluencers, id_to_user_metadata, hH]
    | cons hd tl ih =>
      obtain ⟨j, d⟩ := hd
      simp only [List.cons_append, processInfluencers]
      cases hm : id_to_user_metadata H j with
      | none => simpa using ih
      | some u =>
        cases hq : (add_civic_stats (initOut u) d).civic_odds_ratio with
        | none => simp [hq]
        | some q => simp only [hq]; split <;> simp [ih]

/-- Witness for C9: each graceful-degradation clause applied at a concrete
erroring oracle. -/
theorem fetch_failure_graceful_witness :
    handle_to_followers Ferr ['x'] = [] ∧
    id_to_followees Gerr 3 = [] ∧
    pass1Step Ferr [] ['x'] = [] ∧
    pass2Step Gerr [] (1, 1) = [] ∧
    processInfluencers Herr ([] ++ (5, 2) :: []) = processInfluencers Herr ([] ++ []) :=
  ⟨fetch_failure_graceful.1 Ferr ['x'] rfl,
   fetch_failure_graceful.2.1 Gerr 3 rfl,
   fetch_failure_graceful.2.2.1 Ferr [] ['x'] rfl,
   fetch_failure_graceful.2.2.2.1 Gerr [] (1, 1) rfl,
   fetch_failure_graceful.2.2.2.2 Herr [] [] 5 2 rfl⟩

/-- Helper: `add_civic_stats` always sets the `civic_listeners` key. -/
theorem add_civic_stats_listeners (r : OutRecord) (c : Nat) :
    (add_civic_stats r c).civic_listeners = some c := by
  simp only [add_civic_stats]
  split <;> rfl

/-- Helper: every record the output loop emits has both keys set and its
ratio at least `MIN_CIVIC_ODDS_RATIO`. -/
theorem processInfluencers_sound (H : Nat → Except Unit UserRecord) :
    ∀ (l : List (Nat × Nat)) (out : List OutRecord),
      processInfluencers H l = some out →
      ∀ r ∈ out, r.civic_listeners.isSome ∧
        ∃ q, r.civic_odds_ratio = some q ∧ MIN_CIVIC_ODDS_RATIO ≤ q := by
  intro l
  induction l with
  | nil =>
    intro out hout r hr
    simp only [processInfluencers, Option.some.injEq] at hout
    subst hout
    simp at hr
  | cons hd tl ih =>
    obtain ⟨i, c⟩ := hd
    intro out hout r hr
    simp only [processInfluencers] at hout
    cases hm : id_to_user_metadata H i with
    | none =>
      simp only [hm] at hout
      exact ih out hout r hr
    | some u =>
      simp only [hm] at hout
      cases hq : (add_civic_stats (initOut u) c).civic_odds_ratio with
      | none =>
        simp only [hq] at hout
        exact Option.noConfusion hout
      | some q =>
        simp only [hq] at hout
        by_cases hle : MIN_CIVIC_ODDS_RATIO ≤ q
        · rw [if_pos hle] at hout
          rcases Option.map_eq_some'.1 hout with ⟨out2, h2, heq⟩
          subst heq
          rcases List.mem_cons.1 hr with hr0 | hr2
          · subst hr0
            exact ⟨by rw [add_civic_stats_listeners]; rfl, q, hq, hle⟩
          · exact ih out2 h2 r hr2
        · rw [if_neg hle] at hout
          exact ih out hout r hr

/-- C4: every record in the output of `get_expanded_users` carries both a
`civic_listeners` and a `civic_odds_ratio` field, and its ratio is at least
`MIN_CIVIC_ODDS_RATIO`; no record below the threshold is emitted. -/
theorem output_records_filtered :
    ∀ (F : List Char → Except Unit (List Nat)) (G : Nat → Except Unit (List Nat))
      (H : Nat → Except Unit UserRecord) (lines : List (List Char)) (out : List OutRecord),
      get_expanded_users F G H lines = some out →
      ∀ r ∈ out, r.civic_listeners.isSome ∧
        ∃ q, r.civic_odds_ratio = some q ∧ MIN_CIVIC_ODDS_RATIO ≤ q := by
  intro F G H lines out hout
  unfold get_expanded_users at hout
  cases hread : read_seed_set lines with
  | none =>
    simp only [hread] at hout
    exact Option.noConfusion hout
  | some seeds =>
    simp only [hread] at hout
    by_cases h1 : (follower_map F seeds).isEmpty
    · rw [if_pos h1] at hout
      exact Option.noConfusion hout
    · rw [if_neg h1] at hout
      by_cases h2 :
        (followee_map G (rankTop LISTENER_SET_SIZE (follower_map F seeds))).isEmpty
      · rw [if_pos h2] at hout
        exact Option.noConfusion hout
      · rw [if_neg h2] at hout
        exact processInfluencers_sound H _ out hout

/-- Helper: concrete evaluation of the full pipeline on the `F0`/`G0`/`H0`
oracles, seed file `a`. -/
theorem run0_eval : get_expanded_users F0 G0 H0 lines0 = some out0 := by
  have h1 : get_expanded_users F0 G0 H0 lines0 = processInfluencers H0 [(7, 2)] := rfl
  have h2 : add_civic_stats (initOut ⟨100⟩) 2 = rec0 := by
    simp only [add_civic_stats, initOut, rec0]
    norm_num [INFLUENCER_SET_SIZE, NUM_TWITTER_USERS]
  rw [h1]
  simp only [processInfluencers, id_to_user_metadata, H0, h2]
  have h3 : rec0.civic_odds_ratio = some ((9999998 : ℚ) / 999) := rfl
  simp only [h3]
  rw [if_pos (by norm_num [ MIN_CIVIC_ODDS_RATIO] :
    MIN_CIVIC_ODDS_RATIO ≤ (9999998 : ℚ) / 999)]
  simp [out0]

/-- Witness for C4: the record emitted by the concrete run has both fields
set and passes the threshold. -/
theorem output_records_filtered_witness :
    rec0.civic_listeners.isSome ∧
    ∃ q, rec0.civic_odds_ratio = some q ∧ MIN_CIVIC_ODDS_RATIO ≤ q :=
  output_records_filtered F0 G0 H0 lines0 out0 run0_eval rec0 (by simp [out0])

/-- Helper: inserting under the descending key order keeps every per-key
filter intact apart from consing the new element onto its own key class;
this is the stability property of the sort. -/
theorem filter_orderedInsert (f : α → Nat) (c : Nat) (a : α) :
    ∀ l : List α,
      (List.orderedInsert (keyDesc f) a l).filter (fun x => f x == c) =
        if f a = c then a :: l.filter (fun x => f x == c)
        else l.filter (fun x => f x == c) := by
  intro l
  induction l with
  | nil => by_cases hc : f a = c <;> simp [hc]
  | cons b t ih =>
    by_cases hr : keyDesc f a b
    · by_cases hc : f a = c <;> simp [List.orderedInsert, hr, hc, List.filter_cons]
    · have hb : f a < f b := Nat.lt_of_not_le (by simpa [keyDesc] using hr)
      by_cases hc : f a = c
      · have hbc : ¬f b = c := by omega
        simp [List.orderedInsert, hr, List.filter_cons, hbc, ih, hc]
      · simp [List.orderedInsert, hr, List.filter_cons, ih, hc]

/-- Helper: the stable sort preserves the input order inside every class of
tied keys. -/
theorem filter_insertionSort (f : α → Nat) (c : Nat) :
    ∀ l : List α,
      (List.insertionSort (keyDesc f) l).filter (fun x => f x == c) =
        l.filter (fun x => f x == c) := by
  intro l
  induction l with
  | nil => rfl
  | cons a t ih =>
    simp only [List.insertionSort]
    rw [filter_orderedInsert]
    by_cases hc : f a = c <;> simp [List.filter_cons, hc, ih]

/-- C2: pass-1 ranking keeps exactly `min LISTENER_SET_SIZE n` entries, is
sorted by set cardinality descending, is stable (every class of tied
cardinalities keeps its input order), annotates each kept entry with the
cardinality of its accumulated set, and on counts `[3, 3, 1]` outputs the
tied identities in input order. -/
theorem listener_ranking :
    (∀ (α : Type) (m : List (Nat × List α)),
      (rankTop LISTENER_SET_SIZE m).length = min LISTENER_SET_SIZE m.length ∧
      List.Sorted (keyDesc Prod.snd) (rankTop LISTENER_SET_SIZE m) ∧
      (∀ c, (m.insertionSort (keyDesc setSize)).filter (fun p => setSize p == c) =
        m.filter (fun p => setSize p == c)) ∧
      (∀ p ∈ rankTop LISTENER_SET_SIZE m, ∃ s, (p.1, s) ∈ m ∧ p.2 = s.length)) ∧
    rankTop LISTENER_SET_SIZE m0 = [(10, 3), (20, 3), (30, 1)] := by
  constructor
  · intro α m
    refine ⟨?_, ?_, ?_, ?_⟩
    · simp [rankTop]
    · have hs := List.sorted_insertionSort (keyDesc (setSize (α := α))) m
      have ht : List.Pairwise (keyDesc (setSize (α := α)))
          ((List.insertionSort (keyDesc setSize) m).take LISTENER_SET_SIZE) :=
        hs.sublist (List.take_sublist LISTENER_SET_SIZE _)
      exact List.pairwise_map.2 (ht.imp (fun hab => hab))
    · intro c
      exact filter_insertionSort setSize c m
    · intro p hp
      simp only [rankTop, List.mem_map] at hp
      obtain ⟨q, hq, rfl⟩ := hp
      have hq2 : q ∈ m :=
        (List.mem_insertionSort (keyDesc setSize)).1 (List.take_subset _ _ hq)
      exact ⟨q.2, by simpa using hq2, rfl⟩
  · decide

/-- Witness for C2: the tied top entry of the concrete map carries the
cardinality of its seed-handle set. -/
theorem listener_ranking_witness :
    ∃ s, (10, s) ∈ m0 ∧ (3 : Nat) = s.length :=
  (listener_ranking.1 Nat m0).2.2.2 (10, 3) (by decide)

/-- Helper: length of a chunk. -/
theorem chunk_length (n k : Nat) (l : List α) :
    (chunk n k l).length = min n (l.length - k * n) := by
  simp [chunk]

/-- Helper: the successor chunk of `l` is a chunk of `l` with its first `n`
elements dropped. -/
theorem chunk_succ (n k : Nat) (l : List α) :
    chunk n (k + 1) l = chunk n k (l.drop n) := by
  unfold chunk
  rw [List.drop_drop]
  congr 2
  ring

/-- Helper: the `range(0, len, n)` chunks of a list, concatenated in order,
rebuild the list. -/
theorem chunks_join (n : Nat) (hn : 0 < n) :
    ∀ (fuel : Nat) (l : List α), l.length ≤ fuel →
      ((List.range ((l.length + n - 1) / n)).map (fun k => chunk n k l)).flatten = l := by
  intro fuel
  induction fuel with
  | zero =>
    intro l hl
    have hnil : l = [] := List.eq_nil_of_length_eq_zero (Nat.le_zero.1 hl)
    subst hnil
    have h0 : ((List.length ([] : List α)) + n - 1) / n = 0 :=
      Nat.div_eq_of_lt (by simp; omega)
    rw [h0]
    rfl
  | succ fuel ih =>
    intro l hl
    cases l with
    | nil =>
      have h0 : ((List.length ([] : List α)) + n - 1) / n = 0 :=
        Nat.div_eq_of_lt (by simp; omega)
      rw [h0]
      rfl
    | cons a t =>
      have hL1 : 1 ≤ (a :: t).length := by simp
      have hnum : ((a :: t).length + n - 1) / n = ((a :: t).length - 1) / n + 1 := by
        have harith : (a :: t).length + n - 1 = ((a :: t).length - 1) + n := by omega
        rw [harith, Nat.add_div_right _ hn]
      have hrec : ((a :: t).length - 1) / n = (((a :: t).drop n).length + n - 1) / n := by
        rw [List.length_drop]
        rcases le_or_lt (a :: t).length n with h | h
        · rw [Nat.div_eq_of_lt (by omega), Nat.div_eq_of_lt (by omega)]
        · congr 1
          omega
      have hfun : (fun k => chunk n (k + 1) (a :: t)) =
          (fun k => chunk n k ((a :: t).drop n)) :=
        funext (fun k => chunk_succ n k (a :: t))
      have hdroplen : ((a :: t).drop n).length ≤ fuel := by
        rw [List.length_drop]
        have := hl
        simp only [List.length_cons] at this ⊢
        omega
      rw [hnum, List.range_succ_eq_map, List.map_cons, List.map_map, List.flatten_cons]
      have hcomp : ((fun k => chunk n k (a :: t)) ∘ Nat.succ) =
          (fun k => chunk n k ((a :: t).drop n)) := hfun
      rw [hcomp, hrec, ih _ hdroplen]
      have hc0 : chunk n 0 (a :: t) = (a :: t).take n := by simp [chunk]
      rw [hc0, List.take_append_drop]

/-- C5: `handles_to_rules` produces exactly `ceil(n / NUM_HANDLES_PER_RULE)`
rule groups; the chunks cover the handles consecutively in order, each of at
most `NUM_HANDLES_PER_RULE` handles; every group holds exactly 3 clauses
whose tags are determined by ruleset name, chunk index and clause kind and
whose values are the `from:` / `@` / `retweets_of:` OR-joins of its chunk;
65 handles give chunk sizes `[30, 30, 5]`. -/
theorem powertrack_chunking :
    ∀ (handles : List String) (ruleset_name : String),
      (handles_to_rules handles ruleset_name).length =
        (handles.length + NUM_HANDLES_PER_RULE - 1) / NUM_HANDLES_PER_RULE ∧
      (∀ g ∈ handles_to_rules handles ruleset_name, g.rules.length = 3) ∧
      ((List.range ((handles.length + NUM_HANDLES_PER_RULE - 1) / NUM_HANDLES_PER_RULE)).map
        (fun k => chunk NUM_HANDLES_PER_RULE k handles)).flatten = handles ∧
      (∀ k, (chunk NUM_HANDLES_PER_RULE k handles).length ≤ NUM_HANDLES_PER_RULE) ∧
      (∀ k, k < (handles_to_rules handles ruleset_name).length →
        ∃ g, (handles_to_rules handles ruleset_name).get? k = some g ∧
          g.rules.map Rule.tag =
            ["from_" ++ ruleset_name ++ "_" ++ toString k,
             "at_" ++ ruleset_name ++ "_" ++ toString k,
             "retweets_of_" ++ ruleset_name ++ "_" ++ toString k] ∧
          g.rules.map Rule.value =
            [joinOr ((chunk NUM_HANDLES_PER_RULE k handles).map (fun s => "from:" ++ s)),
             joinOr ((chunk NUM_HANDLES_PER_RULE k handles).map (fun s => "@" ++ s)),
             joinOr ((chunk NUM_HANDLES_PER_RULE k handles).map
               (fun s => "retweets_of:" ++ s))]) ∧
      (handles.length = 65 →
        (List.range ((handles.length + NUM_HANDLES_PER_RULE - 1) / NUM_HANDLES_PER_RULE)).map
          (fun k => (chunk NUM_HANDLES_PER_RULE k handles).length) = [30, 30, 5]) := by
  intro handles ruleset_name
  refine ⟨?_, ?_, ?_, ?_, ?_, ?_⟩
  · simp [handles_to_rules]
  · intro g hg
    simp only [handles_to_rules, List.mem_map] at hg
    obtain ⟨k, _, rfl⟩ := hg
    rfl
  · exact chunks_join NUM_HANDLES_PER_RULE (by norm_num [NUM_HANDLES_PER_RULE])
      handles.length handles le_rfl
  · intro k
    rw [chunk_length]
    exact Nat.min_le_left _ _
  · intro k hk
    simp only [handles_to_rules, List.length_map, List.length_range] at hk
    have hg : (handles_to_rules handles ruleset_name).get? k =
        some ⟨[make_rule
            (joinOr ((chunk NUM_HANDLES_PER_RULE k handles).map (fun s => "from:" ++ s)))
            ("from_" ++ ruleset_name ++ "_" ++ toString k),
          make_rule
            (joinOr ((chunk NUM_HANDLES_PER_RULE k handles).map (fun s => "@" ++ s)))
            ("at_" ++ ruleset_name ++ "_" ++ toString k),
          make_rule
            (joinOr ((chunk NUM_HANDLES_PER_RULE k handles).map
              (fun s => "retweets_of:" ++ s)))
            ("retweets_of_" ++ ruleset_name ++ "_" ++ toString k)]⟩ := by
      simp only [handles_to_rules]
      rw [List.get?_map, List.get?_range hk]
      rfl
    exact ⟨_, hg, rfl, rfl⟩
  · intro h65
    simp only [chunk_length, h65, NUM_HANDLES_PER_RULE]
    decide

/-- Witness for C5 at 65 identical handles and ruleset name `bos`: the
first rule group and the chunk sizes. -/
theorem powertrack_chunking_witness :
    (∃ g, (handles_to_rules (List.replicate 65 "h") "bos").get? 0 = some g ∧
      g.rules.map Rule.tag =
        ["from_" ++ "bos" ++ "_" ++ toString 0,
         "at_" ++ "bos" ++ "_" ++ toString 0,
         "retweets_of_" ++ "bos" ++ "_" ++ toString 0] ∧
      g.rules.map Rule.value =
        [joinOr ((chunk NUM_HANDLES_PER_RULE 0 (List.replicate 65 "h")).map
           (fun s => "from:" ++ s)),
         joinOr ((chunk NUM_HANDLES_PER_RULE 0 (List.replicate 65 "h")).map
           (fun s => "@" ++ s)),
         joinOr ((chunk NUM_HANDLES_PER_RULE 0 (List.replicate 65 "h")).map
           (fun s => "retweets_of:" ++ s))]) ∧
    (List.range ((((List.replicate 65 "h" : List String)).length + NUM_HANDLES_PER_RULE - 1) /
        NUM_HANDLES_PER_RULE)).map
      (fun k => (chunk NUM_HANDLES_PER_RULE k (List.replicate 65 "h" : List String)).length) =
      [30, 30, 5] :=
  ⟨(powertrack_chunking (List.replicate 65 "h") "bos").2.2.2.2.1 0
     (by norm_num [handles_to_rules, NUM_HANDLES_PER_RULE]),
   (powertrack_chunking (List.replicate 65 "h") "bos").2.2.2.2.2 (by simp)⟩

/-- C6: the CSV exporter emits rows exactly for the records with at least 20
followers and ratio at least 200 (a permutation of them whenever no
truncation happens), never more than 500 rows, sorted by follower count
descending, each row carrying the six fixed columns of its record. -/
theorem csv_export :
    ∀ (recs : List InfRecord),
      (∀ row ∈ csvRows recs, ∃ x, x ∈ recs ∧ 20 ≤ x.followers_count ∧
        (200 : ℚ) ≤ x.civic_odds_ratio ∧ row = toRow x) ∧
      (csvRows recs).length ≤ 500 ∧
      List.Sorted (keyDesc CsvRow.followers_col) (csvRows recs) ∧
      ((recs.filter keepRecord).length ≤ 500 →
        List.Perm (csvRows recs) ((recs.filter keepRecord).map toRow)) := by
  intro recs
  refine ⟨?_, ?_, ?_, ?_⟩
  · intro row hrow
    simp only [csvRows, List.mem_map] at hrow
    obtain ⟨x, hx, rfl⟩ := hrow
    have hx2 : x ∈ recs.filter keepRecord :=
      (List.mem_insertionSort (keyDesc InfRecord.followers_count)).1
        (List.take_subset _ _ hx)
    rcases List.mem_filter.1 hx2 with ⟨hxr, hxk⟩
    simp only [keepRecord, Bool.and_eq_true, decide_eq_true_eq] at hxk
    exact ⟨x, hxr, hxk.1, hxk.2, rfl⟩
  · simp only [csvRows, List.length_map, List.length_take]
    exact Nat.min_le_left _ _
  · have hs := List.sorted_insertionSort (keyDesc InfRecord.followers_count)
      (recs.filter keepRecord)
    have ht : List.Pairwise (keyDesc InfRecord.followers_count)
        (((recs.filter keepRecord).insertionSort
          (keyDesc InfRecord.followers_count)).take 500) :=
      hs.sublist (List.take_sublist 500 _)
    exact List.pairwise_map.2 (ht.imp (fun hab => hab))
  · intro hlen
    have hlen2 : ((recs.filter keepRecord).insertionSort
        (keyDesc InfRecord.followers_count)).length ≤ 500 := by
      rw [List.length_insertionSort]
      exact hlen
    have hperm := List.perm_insertionSort (keyDesc InfRecord.followers_count)
      (recs.filter keepRecord)
    simp only [csvRows]
    rw [List.take_of_length_le hlen2]
    exact hperm.map toRow

/-- Witness for C6 on the concrete record list: the emitted rows are a
permutation of the two records passing both thresholds, and the top row
stems from a passing record. -/
theorem csv_export_witness :
    List.Perm (csvRows recs0) ((recs0.filter keepRecord).map toRow) ∧
    (∃ x, x ∈ recs0 ∧ 20 ≤ x.followers_count ∧ (200 : ℚ) ≤ x.civic_odds_ratio ∧
      toRow ⟨['e'], ['E'], ['l'], 30, 250, ['d']⟩ = toRow x) :=
  ⟨(csv_export recs0).2.2.2 (by decide),
   (csv_export recs0).1 (toRow ⟨['e'], ['E'], ['l'], 30, 250, ['d']⟩) (by decide)⟩

/-- Helper: whitespace is never an `@` sign. -/
theorem ws_ne_at (c : Char) (hc : pyWhitespace c = true) : (c != '@') = true := by
  by_cases h : c = '@'
  · subst h
    simp [pyWhitespace] at hc
  · simp [h]

/-- Helper: a leading whitespace character does not change the split. -/
theorem pySplit_ws_cons (c : Char) (hc : pyWhitespace c = true) (l : List Char) :
    pySplit (c :: l) = pySplit l := by
  simp [pySplit, splitStep, hc, List.filter_cons]

/-- Helper: a whitespace run on the left does not change the split. -/
theorem pySplit_ws_append :
    ∀ (w : List Char), (∀ c ∈ w, pyWhitespace c = true) →
      ∀ l, pySplit (w ++ l) = pySplit l := by
  intro w
  induction w with
  | nil => intro _ l; rfl
  | cons c w2 ih =>
    intro hw l
    rw [List.cons_append, pySplit_ws_cons c (hw c (List.mem_cons_self c w2))]
    exact ih (fun d hd => hw d (List.mem_cons_of_mem c hd)) l

/-- Helper: folding the splitter from an extra empty pending token either
leaves the result unchanged or appends one empty token, so the filtered
token list is unchanged. -/
theorem foldr_splitStep_phantom :
    ∀ l : List Char, l.foldr splitStep [[]] = l.foldr splitStep [] ∨
      l.foldr splitStep [[]] = l.foldr splitStep [] ++ [[]] := by
  intro l
  induction l with
  | nil => right; rfl
  | cons c t ih =>
    rcases ih with h | h
    · left
      simp [List.foldr_cons, h]
    · by_cases hc : pyWhitespace c
      · right
        simp [List.foldr_cons, h, splitStep, hc]
      · cases hB : t.foldr splitStep [] with
        | nil =>
          left
          rw [List.foldr_cons, List.foldr_cons, h, hB]
          simp [splitStep, hc]
        | cons b bs =>
          right
          rw [List.foldr_cons, List.foldr_cons, h, hB]
          simp [splitStep, hc]

/-- Helper: a trailing whitespace character does not change the split. -/
theorem pySplit_ws_snoc (l : List Char) (c : Char) (hc : pyWhitespace c = true) :
    pySplit (l ++ [c]) = pySplit l := by
  unfold pySplit
  rw [List.foldr_append]
  have h1 : List.foldr splitStep [] [c] = [[]] := by simp [splitStep, hc]
  rw [h1]
  rcases foldr_splitStep_phantom l with h | h
  · rw [h]
  · rw [h, List.filter_append]
    simp

/-- Helper: a whitespace run on the right does not change the split. -/
theorem pySplit_ws_append_right :
    ∀ (w : List Char), (∀ c ∈ w, pyWhitespace c = true) →
      ∀ l, pySplit (l ++ w) = pySplit l := by
  intro w
  induction w with
  | nil => intro _ l; simp
  | cons c w2 ih =>
    intro hw l
    have hstep : l ++ (c :: w2) = (l ++ [c]) ++ w2 := by simp
    rw [hstep, ih (fun d hd => hw d (List.mem_cons_of_mem c hd)) (l ++ [c]),
      pySplit_ws_snoc l c (hw c (List.mem_cons_self c w2))]

/-- Helper: every line is a whitespace run, its stripped core, and another
whitespace run. -/
theorem pyStrip_decomp (l : List Char) :
    ∃ w1 w2, (∀ c ∈ w1, pyWhitespace c = true) ∧ (∀ c ∈ w2, pyWhitespace c = true) ∧
      l = w1 ++ (pyStrip l ++ w2) := by
  refine ⟨l.takeWhile pyWhitespace,
    ((l.dropWhile pyWhitespace).reverse.takeWhile pyWhitespace).reverse,
    fun c hc => List.mem_takeWhile_imp hc,
    fun c hc => List.mem_takeWhile_imp (List.mem_reverse.1 hc), ?_⟩
  conv_lhs => rw [← List.takeWhile_append_dropWhile pyWhitespace l]
  congr 1
  calc l.dropWhile pyWhitespace
      = (l.dropWhile pyWhitespace).reverse.reverse := by rw [List.reverse_reverse]
    _ = ((l.dropWhile pyWhitespace).reverse.takeWhile pyWhitespace ++
          (l.dropWhile pyWhitespace).reverse.dropWhile pyWhitespace).reverse := by
        rw [List.takeWhile_append_dropWhile]
    _ = ((l.dropWhile pyWhitespace).reverse.dropWhile pyWhitespace).reverse ++
          ((l.dropWhile pyWhitespace).reverse.takeWhile pyWhitespace).reverse := by
        rw [List.reverse_append]
    _ = pyStrip l ++
          ((l.dropWhile pyWhitespace).reverse.takeWhile pyWhitespace).reverse := rfl

/-- Helper: stripping before removing the `@` signs does not change the
token list, because the split discards boundary whitespace anyway. -/
theorem pySplit_removeAts_strip (l : List Char) :
    pySplit (removeAts (pyStrip l)) = pySplit (removeAts l) := by
  obtain ⟨w1, w2, hw1, hw2, hdec⟩ := pyStrip_decomp l
  conv_rhs => rw [hdec]
  unfold removeAts
  rw [List.filter_append, List.filter_append]
  have hf1 : w1.filter (fun c => c != '@') = w1 :=
    List.filter_eq_self.2 (fun c hc => ws_ne_at c (hw1 c hc))
  have hf2 : w2.filter (fun c => c != '@') = w2 :=
    List.filter_eq_self.2 (fun c hc => ws_ne_at c (hw2 c hc))
  rw [hf1, hf2, pySplit_ws_append w1 hw1,
    pySplit_ws_append_right w2 hw2 ((pyStrip l).filter (fun c => c != '@'))]

/-- C7 counterexample: on the line `a@b` the code removes the interior `@`
(yielding handle `ab`), while the spec words (only a leading `@` stripped)
would yield `a@b`. -/
theorem seed_at_counterexample :
    read_seed_set [['a', '@', 'b']] = some [['a', 'b']] ∧
    read_seed_set_specLeading [['a', '@', 'b']] = some [['a', '@', 'b']] ∧
    ¬ read_seed_set [['a', '@', 'b']] = read_seed_set_specLeading [['a', '@', 'b']] := by
  decide

/-- C7 amended: `read_seed_set` returns the deduplicated handles obtained by
taking, from each non-empty line, the first whitespace-delimited token of
the line with every `@` character removed; on input `["@a", "a", " b "]` it
returns exactly `{a, b}`. -/
theorem seed_set_amended :
    (∀ lines, read_seed_set lines = read_seed_set_amended lines) ∧
    read_seed_set [['@', 'a'], ['a'], [' ', 'b', ' ']] = some [['a'], ['b']] := by
  constructor
  · intro lines
    unfold read_seed_set read_seed_set_amended
    have hfun : (fun line => (pySplit (removeAts (pyStrip line))).head?) =
        (fun line => (pySplit (removeAts line)).head?) :=
      funext (fun line => by rw [pySplit_removeAts_strip])
    rw [hfun]
  · decide

end ExpandInfluencers
